import Mathlib

/-!
Verification of the load-admission and instance-reuse logic of the
powerbi-client-react demo application.

Part I models the Load Admission Controller (the `report-load-manager`
module used by `OptimizedPowerBIEmbed`).  Part II models the Shared
Embedding Handle Registry (the singleton Power BI service used through
`usePowerBIService`).  Part III embeds the component-level logic that is
present in the repository sources: the `OptimizedPowerBIEmbed` state
machine (lazy loading, retry, failure handling), the `SimplePowerBIEmbed`
embed-effect guard, and the demo application's `addEvent` history.
-/

namespace PowerBIReact

/- ## Part I: Load Admission Controller -/

/-- Modelled from the spec: the `report-load-manager` module is not among
the provided sources; `LoadRequest.priority` is the enum {high, normal,
low} of §3 with ordering high > normal > low (§4.1). -/
inductive Priority where
  | high
  | normal
  | low
  deriving DecidableEq, Repr

/-- Numeric rank of a priority: smaller rank = served first. -/
def Priority.rank : Priority → Nat
  | .high => 0
  | .normal => 1
  | .low => 2

/-- Modelled from the spec: the LoadRequest record of §3 — the
`report-load-manager` module is not among the provided sources.  The
`onAdmit` callback is represented by reporting admitted keys in order
rather than storing a closure. -/
structure LoadRequest where
  reportKey : String
  priority : Priority
  enqueuedAt : Nat
  deriving DecidableEq, Repr

/-- Modelled from the spec: the AdmissionState record of §3 — the
`report-load-manager` module is not among the provided sources.
`inFlight` is the set of admitted keys (as a duplicate-free list) and
`queue` the ordered collection of pending requests. -/
structure AdmissionState where
  maxConcurrent : Nat
  inFlight : List String
  queue : List LoadRequest
  deriving DecidableEq, Repr

/-- The initial admission state: nothing in flight, empty queue. -/
def AdmissionState.init (n : Nat) : AdmissionState :=
  { maxConcurrent := n, inFlight := [], queue := [] }

/-- Request `a` is served strictly before request `b`: higher priority,
or same priority and strictly earlier enqueue time. -/
def betterThan (a b : LoadRequest) : Bool :=
  a.priority.rank < b.priority.rank ||
    (a.priority.rank == b.priority.rank && a.enqueuedAt < b.enqueuedAt)

/-- Modelled from the spec: "pop the highest-priority request
(tie-break: earliest `enqueuedAt`)" (§4.1).  Returns the selected request
and the remaining queue in its original order; on a full tie the earliest
queued request wins. -/
def extractBest : List LoadRequest → Option (LoadRequest × List LoadRequest)
  | [] => none
  | r :: rest =>
    match extractBest rest with
    | none => some (r, [])
    | some (b, others) =>
      if betterThan b r then some (b, r :: others) else some (r, rest)

/-- Modelled from the spec: the drain loop of §4.1 — "while capacity
remains and the queue is non-empty, pop the highest-priority request
(tie-break: earliest `enqueuedAt`) and admit it."  `fuel` bounds the
iteration (the queue length suffices).  Returns the new state together
with the admitted keys in admission order. -/
def drain : Nat → AdmissionState → AdmissionState × List String
  | 0, s => (s, [])
  | fuel + 1, s =>
    if s.inFlight.length < s.maxConcurrent then
      match extractBest s.queue with
      | none => (s, [])
      | some (r, rest) =>
        let s' : AdmissionState :=
          { s with inFlight := r.reportKey :: s.inFlight, queue := rest }
        ((drain fuel s').1, r.reportKey :: (drain fuel s').2)
    else (s, [])

/-- Modelled from the spec: `requestLoad(reportKey, priority, onAdmit)`
of §4.1 — dedup against pending and admitted entries, admit immediately
below capacity, enqueue otherwise.  Returns the new state and the keys
whose `onAdmit` callback fired. -/
def requestLoad (s : AdmissionState) (k : String) (p : Priority) (now : Nat) :
    AdmissionState × List String :=
  if k ∈ s.inFlight ∨ k ∈ s.queue.map LoadRequest.reportKey then
    (s, [])
  else if s.inFlight.length < s.maxConcurrent then
    ({ s with inFlight := k :: s.inFlight }, [k])
  else
    ({ s with queue := s.queue ++ [⟨k, p, now⟩] }, [])

/-- Modelled from the spec: the common body of `reportLoaded(reportKey)`
and `reportFailed(reportKey)` of §4.1 — remove the key from `inFlight`
and drain; repeated calls for a key no longer in flight are ignored
(§4.1 failure notes). -/
def releaseLoad (s : AdmissionState) (k : String) : AdmissionState × List String :=
  if k ∈ s.inFlight then
    let s' : AdmissionState := { s with inFlight := s.inFlight.filter (fun k2 => k2 ≠ k) }
    drain s'.queue.length s'
  else (s, [])

/-- Modelled from the spec: `reportLoaded` releases the slot and drains. -/
def reportLoaded (s : AdmissionState) (k : String) : AdmissionState × List String :=
  releaseLoad s k

/-- Modelled from the spec: `reportFailed` releases the slot and drains. -/
def reportFailed (s : AdmissionState) (k : String) : AdmissionState × List String :=
  releaseLoad s k

/-- Modelled from the spec: `cancelLoad(reportKey)` of §4.1 — removes a
pending request from the queue if not yet admitted; a no-op otherwise. -/
def cancelLoad (s : AdmissionState) (k : String) : AdmissionState :=
  { s with queue := s.queue.filter (fun r => r.reportKey ≠ k) }

/-- Number of queue drains a `reportLoaded`/`reportFailed` call performs:
one when the key is in flight, zero when the call is ignored. -/
def releaseDrains (s : AdmissionState) (k : String) : Nat :=
  if k ∈ s.inFlight then 1 else 0

/-- The event alphabet of the admission controller used by the embedding
components: the four calls exposed to UI components (§6). -/
inductive MgrEvent where
  | request (k : String) (p : Priority) (t : Nat)
  | loaded (k : String)
  | failed (k : String)
  | cancel (k : String)
  deriving DecidableEq, Repr

/-- One controller call (admitted keys discarded). -/
def mgrStep (s : AdmissionState) : MgrEvent → AdmissionState
  | .request k p t => (requestLoad s k p t).1
  | .loaded k => (reportLoaded s k).1
  | .failed k => (reportFailed s k).1
  | .cancel k => (cancelLoad s k)

/-- A sequence of controller calls. -/
def mgrRun (s : AdmissionState) (es : List MgrEvent) : AdmissionState :=
  es.foldl mgrStep s

/-- The controller invariant (§3): at most `maxConcurrent` keys in
flight, no duplicate in-flight keys, no duplicate queued keys, and the
queue never contains a key already in flight. -/
def wf (s : AdmissionState) : Prop :=
  s.inFlight.length ≤ s.maxConcurrent ∧
  s.inFlight.Nodup ∧
  (s.queue.map LoadRequest.reportKey).Nodup ∧
  ∀ r ∈ s.queue, r.reportKey ∉ s.inFlight

instance (s : AdmissionState) : Decidable (wf s) := by
  unfold wf
  infer_instance

/- ## Part II: Shared Embedding Handle Registry -/

/-- Modelled from the spec: a RegistryEntry of §3 — the singleton
Power BI service behind `usePowerBIService` is not among the provided
sources.  The opaque SDK handle and container reference are reduced to
the componentId key and the listener flag that `removeInstance` acts
on. -/
structure RegistryEntry where
  componentId : String
  listenersAttached : Bool
  deriving DecidableEq, Repr

/-- Modelled from the spec: the Registry state — entries keyed by
componentId, plus a log of the ids whose handles had their event
listeners detached (so the detach side effect of `removeInstance` is
observable). -/
structure Registry where
  entries : List RegistryEntry
  detachedIds : List String
  deriving DecidableEq, Repr

/-- The componentIds currently registered. -/
def Registry.ids (reg : Registry) : List String :=
  reg.entries.map RegistryEntry.componentId

/-- Modelled from the spec: `removeInstance(componentId)` of §4.2 —
"looks up the entry by componentId, detaches event listeners on its
handle, and removes the entry; no-op if componentId is unknown".  The
function is total: an unknown id never raises. -/
def removeInstance (reg : Registry) (id : String) : Registry :=
  match reg.entries.find? (fun e => e.componentId == id) with
  | none => reg
  | some _ =>
    { entries := reg.entries.filter (fun e => e.componentId ≠ id),
      detachedIds := id :: reg.detachedIds }

/- ## Part III: component-level logic present in the sources -/

/-- Outcome of one run of the embed effect of `SimplePowerBIEmbed`
(src/unnamed/part_000): either the guard fires (`console.warn` and
`return`, nothing reaches the error callback), or the embed attempt is
made and an SDK rejection is delivered to `onError`, or the embed
succeeds. -/
inductive EmbedOutcome where
  | silentSkip
  | errorDelivered (msg : String)
  | embedded
  deriving DecidableEq, Repr

/-- Whether the outcome invoked the caller's `onError` path. -/
def EmbedOutcome.deliversError : EmbedOutcome → Bool
  | .errorDelivered _ => true
  | _ => false

/-- The embed effect of `SimplePowerBIEmbed` (src/unnamed/part_000):
`if (!containerRef.current || !accessToken || !embedUrl || !reportId)
\x7b console.warn(...); return; \x7d` — a missing container or an empty
required field skips the attempt without touching `onError`; otherwise
the embed call is made and a rejection lands in the catch block, which
calls `onError(error)`. -/
def simpleEmbedAttempt (hasContainer : Bool) (accessToken embedUrl reportId : String)
    (sdkError : Option String) : EmbedOutcome :=
  if hasContainer = false ∨ accessToken = "" ∨ embedUrl = "" ∨ reportId = "" then
    EmbedOutcome.silentSkip
  else
    match sdkError with
    | some msg => EmbedOutcome.errorDelivered msg
    | none => EmbedOutcome.embedded

/-- The guard of `embedReportInContainer` in `OptimizedPowerBIEmbed`
(src/unnamed/part_000): `if (!containerRef.current || !embedConfig ||
!isInitialized) \x7b return; \x7d` — the embed proceeds only when all
three are present; otherwise it returns silently. -/
def optimizedEmbedGuardPasses (hasContainer hasConfig isInitialized : Bool) : Bool :=
  hasContainer && hasConfig && isInitialized

/-- The per-component props of `OptimizedPowerBIEmbed` that drive the
load-manager interaction (src/unnamed/part_000). -/
structure CompParams where
  reportId : String
  priority : Priority
  lazyLoad : Bool
  deriving DecidableEq, Repr

/-- The component state of `OptimizedPowerBIEmbed` relevant to the load
manager: the `shouldLoad`, `isVisible`, `isLoading` and `hasError`
React states (src/unnamed/part_000). -/
structure CompState where
  shouldLoad : Bool
  isVisible : Bool
  isLoading : Bool
  hasError : Option String
  deriving DecidableEq, Repr

/-- Initial component state (src/unnamed/part_000):
`useState(!lazyLoad)` for `isVisible`,
`useState(priority === 'high' || !lazyLoad)` for `shouldLoad`,
`useState(true)` for `isLoading`, `useState(null)` for `hasError`. -/
def initComp (P : CompParams) : CompState :=
  { shouldLoad := decide (P.priority = Priority.high) || !P.lazyLoad,
    isVisible := !P.lazyLoad,
    isLoading := true,
    hasError := none }

/-- A call the component makes on the load manager or the singleton
service (src/unnamed/part_000). -/
inductive MgrCall where
  | requestLoad (k : String) (p : Priority)
  | reportLoaded (k : String)
  | reportFailed (k : String)
  | cancelLoad (k : String)
  | embedAttempt (k : String)
  deriving DecidableEq, Repr

/-- The external events `OptimizedPowerBIEmbed` reacts to
(src/unnamed/part_000): the IntersectionObserver firing, the load
manager's `onAdmit` callback, the embed effect running, the SDK
`loaded` / `error` events, the embed promise rejecting, the user
clicking the retry button, and unmount. -/
inductive CompEvent where
  | intersect
  | admitCb
  | effectEmbed
  | loadedEvt
  | errorEvt (msg : String)
  | embedCatch (msg : String)
  | retryClick
  | unmount
  deriving DecidableEq, Repr

/-- One step of `OptimizedPowerBIEmbed` (src/unnamed/part_000), paired
with the calls it issues:
* `intersect` — the IntersectionObserver effect, subscribed only when
  `lazyLoad && !shouldLoad`, sets `isVisible` and calls
  `requestLoad(reportId, priority, ...)`;
* `admitCb` — the `onAdmit` callback runs `setShouldLoad(true)`;
* `effectEmbed` — the embed effect calls `embedReportInContainer` when
  `shouldLoad` holds;
* `loadedEvt` — the `loaded` handler clears the flags and calls
  `reportLoaded(reportId)`;
* `errorEvt` / `embedCatch` — the `error` handler and the catch block
  record the error and call `reportFailed(reportId)`;
* `retryClick` — `handleRetry`, reachable only from the error UI,
  clears the error and calls `requestLoad(reportId, priority, ...)`;
* `unmount` — the cleanup effect calls `cancelLoad(reportId)`. -/
def compStep (P : CompParams) (s : CompState) : CompEvent → CompState × List MgrCall
  | .intersect =>
    if P.lazyLoad && !s.shouldLoad then
      ({ s with isVisible := true }, [.requestLoad P.reportId P.priority])
    else (s, [])
  | .admitCb => ({ s with shouldLoad := true }, [])
  | .effectEmbed =>
    if s.shouldLoad then (s, [.embedAttempt P.reportId]) else (s, [])
  | .loadedEvt =>
    ({ s with isLoading := false, hasError := none }, [.reportLoaded P.reportId])
  | .errorEvt m =>
    ({ s with isLoading := false, hasError := some m }, [.reportFailed P.reportId])
  | .embedCatch m =>
    ({ s with isLoading := false, hasError := some m }, [.reportFailed P.reportId])
  | .retryClick =>
    if s.hasError.isSome then
      ({ s with hasError := none, isLoading := true }, [.requestLoad P.reportId P.priority])
    else (s, [])
  | .unmount => (s, [.cancelLoad P.reportId])

/-- Run the component over a sequence of events, collecting all calls it
issues in order. -/
def compRun (P : CompParams) : CompState → List CompEvent → CompState × List MgrCall
  | s, [] => (s, [])
  | s, e :: es =>
    ((compRun P (compStep P s e).1 es).1,
      (compStep P s e).2 ++ (compRun P (compStep P s e).1 es).2)

/-- An entry of the demo application's event history
(src/React/demo/src/DemoApp.tsx). -/
structure DemoEvent where
  name : String
  tab : String
  timestamp : Nat
  deriving DecidableEq, Repr

/-- The addEvent helper of DemoApp.tsx:
`setEventHistory(prev => [newEvent, ...prev.slice(0, 49)])` — the new
event is prepended and at most the first 49 previous entries are
kept. -/
def addEvent (e : DemoEvent) (prev : List DemoEvent) : List DemoEvent :=
  e :: prev.take 49

/-- The event history after a sequence of `addEvent` calls, starting
from the initial `useState([])`. -/
def runEvents (evs : List DemoEvent) : List DemoEvent :=
  evs.foldl (fun h e => addEvent e h) []

/- ## Concrete scenarios from the spec's testable properties (§8) -/

/-- Scenario of §8: a controller at capacity (`maxConcurrent = 3`, three
keys in flight) with requests A(low,t0), B(high,t1), C(high,t2) queued,
t0 < t1 < t2. -/
def scenarioAtCapacity : AdmissionState :=
  ⟨3, ["x", "y", "z"], [⟨"A", .low, 0⟩, ⟨"B", .high, 1⟩, ⟨"C", .high, 2⟩]⟩

/-- Scenario of §8 after its first release: slot of "x" freed. -/
def scenarioAfterOne : AdmissionState :=
  (releaseLoad scenarioAtCapacity ("x")).1

/-- Scenario of §8 after two releases. -/
def scenarioAfterTwo : AdmissionState :=
  (releaseLoad scenarioAfterOne ("y")).1

/-- Concrete scenario of §8: `maxConcurrent = 1`, `requestLoad("r1")`
has been admitted. -/
def scenarioR1 : AdmissionState :=
  (requestLoad (AdmissionState.init 1) ("r1") .normal 0).1

/-- Concrete scenario of §8, next step: `requestLoad("r2","high")` while
r1 holds the only slot. -/
def scenarioR1R2 : AdmissionState :=
  (requestLoad scenarioR1 ("r2") .high 1).1

/-- The component parameters of the C9 counterexample: a high-priority
report. -/
def highParams : CompParams :=
  ⟨"r1", .high, true⟩

/- ## Lemmas on the scheduling order -/

/-- A request is never served strictly before itself. -/
theorem betterThan_irrefl (a : LoadRequest) : betterThan a a = false := by
  simp [betterThan]

/-- The strict scheduling order is asymmetric. -/
theorem betterThan_asymm {a b : LoadRequest} (h : betterThan a b = true) :
    betterThan b a = false := by
  simp only [betterThan, Bool.or_eq_true, Bool.and_eq_true, decide_eq_true_eq,
    beq_iff_eq, Bool.or_eq_false_iff, Bool.and_eq_false_iff,
    decide_eq_false_iff_not, beq_eq_false_iff_ne, ne_eq] at h ⊢
  omega

/-- Negative transitivity of the strict scheduling order. -/
theorem betterThan_neg_trans {a b c : LoadRequest} (h1 : betterThan a b = false)
    (h2 : betterThan b c = false) : betterThan a c = false := by
  simp only [betterThan, Bool.or_eq_true, Bool.and_eq_true, decide_eq_true_eq,
    beq_iff_eq, Bool.or_eq_false_iff, Bool.and_eq_false_iff,
    decide_eq_false_iff_not, beq_eq_false_iff_ne, ne_eq] at h1 h2 ⊢
  omega

/-- The selection step succeeds exactly on non-empty queues. -/
theorem extractBest_eq_none {q : List LoadRequest} :
    extractBest q = none ↔ q = [] := by
  cases q with
  | nil => simp [extractBest]
  | cons r rest =>
    simp only [extractBest]
    cases h : extractBest rest with
    | none => simp
    | some pr =>
      obtain ⟨b, others⟩ := pr
      by_cases hb : betterThan b r = true <;> simp [hb]

/-- The selection step removes exactly the selected request. -/
theorem extractBest_perm : ∀ {q : List LoadRequest} {r : LoadRequest}
    {rest : List LoadRequest}, extractBest q = some (r, rest) → q.Perm (r :: rest) := by
  intro q
  induction q with
  | nil => intro r rest h; simp [extractBest] at h
  | cons a tl ih =>
    intro r rest h
    simp only [extractBest] at h
    cases htl : extractBest tl with
    | none =>
      rw [htl] at h
      have htl' : tl = [] := extractBest_eq_none.mp htl
      simp only [Option.some.injEq, Prod.mk.injEq] at h
      obtain ⟨rfl, rfl⟩ := h
      rw [htl']
    | some pr =>
      obtain ⟨b, others⟩ := pr
      rw [htl] at h
      by_cases hb : betterThan b a = true
      · simp only [hb, if_true, Option.some.injEq, Prod.mk.injEq] at h
        obtain ⟨rfl, rfl⟩ := h
        exact (List.Perm.cons a (ih htl)).trans (List.Perm.swap b a others)
      · simp only [hb, if_false, Option.some.injEq, Prod.mk.injEq] at h
        obtain ⟨rfl, rfl⟩ := h
        exact List.Perm.refl _

/-- The selected request is one of the queued requests. -/
theorem extractBest_mem {q : List LoadRequest} {r : LoadRequest}
    {rest : List LoadRequest} (h : extractBest q = some (r, rest)) : r ∈ q :=
  (extractBest_perm h).mem_iff.mpr (List.mem_cons_self r rest)

/-- Every request left in the queue was queued. -/
theorem extractBest_rest_mem {q : List LoadRequest} {r : LoadRequest}
    {rest : List LoadRequest} (h : extractBest q = some (r, rest)) :
    ∀ x ∈ rest, x ∈ q := by
  intro x hx
  exact (extractBest_perm h).mem_iff.mpr (List.mem_cons_of_mem r hx)

/-- No queued request is served strictly before the selected one: the
drain pops the highest-priority request, ties broken by earliest
enqueue time. -/
theorem extractBest_optimal : ∀ {q : List LoadRequest} {r : LoadRequest}
    {rest : List LoadRequest}, extractBest q = some (r, rest) →
    ∀ x ∈ q, betterThan x r = false := by
  intro q
  induction q with
  | nil => intro r rest h; simp [extractBest] at h
  | cons a tl ih =>
    intro r rest h x hx
    simp only [extractBest] at h
    cases htl : extractBest tl with
    | none =>
      rw [htl] at h
      have htl' : tl = [] := extractBest_eq_none.mp htl
      simp only [Option.some.injEq, Prod.mk.injEq] at h
      obtain ⟨rfl, rfl⟩ := h
      subst htl'
      rcases List.mem_singleton.mp hx with rfl
      exact betterThan_irrefl x
    | some pr =>
      obtain ⟨b, others⟩ := pr
      rw [htl] at h
      by_cases hb : betterThan b a = true
      · simp only [hb, if_true, Option.some.injEq, Prod.mk.injEq] at h
        obtain ⟨rfl, rfl⟩ := h
        rcases List.mem_cons.mp hx with rfl | hx'
        · exact betterThan_asymm hb
        · exact ih htl x hx'
      · simp only [hb, if_false, Option.some.injEq, Prod.mk.injEq] at h
        obtain ⟨rfl, rfl⟩ := h
        rcases List.mem_cons.mp hx with rfl | hx'
        · exact betterThan_irrefl x
        · exact betterThan_neg_trans (ih htl x hx') (Bool.eq_false_iff.mpr hb)

/- ## Invariant preservation -/

/-- Draining never changes the configured capacity. -/
theorem drain_maxConcurrent (fuel : Nat) : ∀ s : AdmissionState,
    (drain fuel s).1.maxConcurrent = s.maxConcurrent := by
  induction fuel with
  | zero => intro s; rfl
  | succ n ih =>
    intro s
    simp only [drain]
    by_cases hc : s.inFlight.length < s.maxConcurrent
    · simp only [hc, if_true]
      cases hq : extractBest s.queue with
      | none => rfl
      | some pr =>
        obtain ⟨r, rest⟩ := pr
        exact ih _
    · simp [hc]

/-- Every key in flight after a drain was in flight before or was
queued. -/
theorem drain_inFlight_mem (fuel : Nat) : ∀ (s : AdmissionState) (k : String),
    k ∈ (drain fuel s).1.inFlight →
    k ∈ s.inFlight ∨ k ∈ s.queue.map LoadRequest.reportKey := by
  induction fuel with
  | zero => intro s k hk; exact Or.inl hk
  | succ n ih =>
    intro s k hk
    simp only [drain] at hk
    by_cases hc : s.inFlight.length < s.maxConcurrent
    · rw [if_pos hc] at hk
      cases hq : extractBest s.queue with
      | none => rw [hq] at hk; exact Or.inl hk
      | some pr =>
        obtain ⟨r, rest⟩ := pr
        rw [hq] at hk
        rcases ih _ k hk with hin | hqk
        · rcases List.mem_cons.mp hin with rfl | hin'
          · exact Or.inr (List.mem_map_of_mem _ (extractBest_mem hq))
          · exact Or.inl hin'
        · rcases List.mem_map.mp hqk with ⟨x, hx, rfl⟩
          exact Or.inr (List.mem_map_of_mem _ (extractBest_rest_mem hq x hx))
    · rw [if_neg hc] at hk
      exact Or.inl hk

/-- Draining preserves the controller invariant. -/
theorem wf_drain (fuel : Nat) : ∀ s : AdmissionState, wf s → wf (drain fuel s).1 := by
  induction fuel with
  | zero => intro s h; exact h
  | succ n ih =>
    intro s h
    obtain ⟨hlen, hndF, hndQ, hdisj⟩ := h
    simp only [drain]
    by_cases hc : s.inFlight.length < s.maxConcurrent
    · rw [if_pos hc]
      cases hq : extractBest s.queue with
      | none => exact ⟨hlen, hndF, hndQ, hdisj⟩
      | some pr =>
        obtain ⟨r, rest⟩ := pr
        have hperm : s.queue.Perm (r :: rest) := extractBest_perm hq
        have hkeys : (s.queue.map LoadRequest.reportKey).Perm
            (r.reportKey :: rest.map LoadRequest.reportKey) := by
          simpa using hperm.map LoadRequest.reportKey
        have hkeys' : (r.reportKey :: rest.map LoadRequest.reportKey).Nodup :=
          (hkeys.nodup_iff).mp hndQ
        have hrk : r.reportKey ∉ rest.map LoadRequest.reportKey :=
          (List.nodup_cons.mp hkeys').1
        have hrest : (rest.map LoadRequest.reportKey).Nodup :=
          (List.nodup_cons.mp hkeys').2
        apply ih
        refine ⟨?_, ?_, hrest, ?_⟩
        · simpa using hc
        · exact List.nodup_cons.mpr ⟨hdisj r (extractBest_mem hq), hndF⟩
        · intro x hx
          have hxq : x ∈ s.queue := extractBest_rest_mem hq x hx
          intro hmem
          rcases List.mem_cons.mp hmem with heq | hin
          · exact hrk (heq ▸ List.mem_map_of_mem _ hx)
          · exact hdisj x hxq hin
    · rw [if_neg hc]
      exact ⟨hlen, hndF, hndQ, hdisj⟩

/-- A `requestLoad` call preserves the controller invariant. -/
theorem wf_requestLoad (s : AdmissionState) (k : String) (p : Priority) (t : Nat)
    (h : wf s) : wf (requestLoad s k p t).1 := by
  obtain ⟨hlen, hndF, hndQ, hdisj⟩ := h
  simp only [requestLoad]
  by_cases hdup : k ∈ s.inFlight ∨ k ∈ s.queue.map LoadRequest.reportKey
  · rw [if_pos hdup]
    exact ⟨hlen, hndF, hndQ, hdisj⟩
  · rw [if_neg hdup]
    push_neg at hdup
    obtain ⟨hkF, hkQ⟩ := hdup
    by_cases hc : s.inFlight.length < s.maxConcurrent
    · rw [if_pos hc]
      refine ⟨by simpa using hc, List.nodup_cons.mpr ⟨hkF, hndF⟩, hndQ, ?_⟩
      intro r hr hmem
      rcases List.mem_cons.mp hmem with heq | hin
      · exact hkQ (heq ▸ List.mem_map_of_mem _ hr)
      · exact hdisj r hr hin
    · rw [if_neg hc]
      refine ⟨hlen, hndF, ?_, ?_⟩
      · rw [List.map_append]
        exact List.nodup_append.mpr ⟨hndQ, List.nodup_singleton _, by
          intro a ha hb
          rcases List.mem_singleton.mp hb with rfl
          exact hkQ ha⟩
      · intro r hr
        rcases List.mem_append.mp hr with hold | hnew
        · exact hdisj r hold
        · rcases List.mem_singleton.mp hnew with rfl
          exact hkF

/-- A `reportLoaded` / `reportFailed` release preserves the controller
invariant. -/
theorem wf_releaseLoad (s : AdmissionState) (k : String) (h : wf s) :
    wf (releaseLoad s k).1 := by
  obtain ⟨hlen, hndF, hndQ, hdisj⟩ := h
  simp only [releaseLoad]
  by_cases hk : k ∈ s.inFlight
  · rw [if_pos hk]
    apply wf_drain
    refine ⟨?_, hndF.filter _, hndQ, ?_⟩
    · exact le_trans (s.inFlight.length_filter_le _) hlen
    · intro r hr hmem
      exact hdisj r hr (List.mem_of_mem_filter hmem)
  · rw [if_neg hk]
    exact ⟨hlen, hndF, hndQ, hdisj⟩

/-- A `cancelLoad` call preserves the controller invariant. -/
theorem wf_cancelLoad (s : AdmissionState) (k : String) (h : wf s) :
    wf (cancelLoad s k) := by
  obtain ⟨hlen, hndF, hndQ, hdisj⟩ := h
  refine ⟨hlen, hndF, ?_, ?_⟩
  · exact List.Nodup.sublist ((List.filter_sublist s.queue).map LoadRequest.reportKey) hndQ
  · intro r hr
    exact hdisj r (List.mem_of_mem_filter hr)

/-- Every controller call preserves the invariant. -/
theorem wf_mgrStep (s : AdmissionState) (e : MgrEvent) (h : wf s) :
    wf (mgrStep s e) := by
  cases e with
  | request k p t => exact wf_requestLoad s k p t h
  | loaded k => exact wf_releaseLoad s k h
  | failed k => exact wf_releaseLoad s k h
  | cancel k => exact wf_cancelLoad s k h

/-- The initial state satisfies the invariant. -/
theorem wf_init (n : Nat) : wf (AdmissionState.init n) := by
  refine ⟨by simp [AdmissionState.init], List.nodup_nil, List.nodup_nil, ?_⟩
  intro r hr
  simp [AdmissionState.init] at hr

/-- The invariant holds after any sequence of controller calls. -/
theorem wf_mgrRun_of_wf : ∀ (es : List MgrEvent) (s : AdmissionState),
    wf s → wf (mgrRun s es) := by
  intro es
  induction es with
  | nil => intro s h; exact h
  | cons e tl ih => intro s h; exact ih (mgrStep s e) (wf_mgrStep s e h)

/-- The invariant holds in every state reachable from the initial
state. -/
theorem wf_mgrRun (n : Nat) (es : List MgrEvent) :
    wf (mgrRun (AdmissionState.init n) es) :=
  wf_mgrRun_of_wf es (AdmissionState.init n) (wf_init n)

/-- After a release, the released key is no longer in flight (requires
the invariant: the queue cannot re-admit the same key during the
drain). -/
theorem releaseLoad_not_inFlight (s : AdmissionState) (k : String) (h : wf s) :
    k ∉ (releaseLoad s k).1.inFlight := by
  obtain ⟨hlen, hndF, hndQ, hdisj⟩ := h
  simp only [releaseLoad]
  by_cases hk : k ∈ s.inFlight
  · rw [if_pos hk]
    intro hmem
    rcases drain_inFlight_mem _ _ k hmem with hin | hq
    · rcases List.mem_filter.mp hin with ⟨_, hne⟩
      simp at hne
    · rcases List.mem_map.mp hq with ⟨r, hr, hkey⟩
      exact hdisj r hr (by rw [← hkey] at hk; exact hk)
  · rw [if_neg hk]
    exact hk

/- ## Claim theorems for the Load Admission Controller -/

/-- C1: For every sequence of requestLoad, reportLoaded, reportFailed
and cancelLoad calls on the Load Admission Controller, after every call
the number of in-flight report keys is at most maxConcurrent, and the
queue never contains a reportKey that is already in inFlight. -/
theorem admission_controller_invariant (n : Nat) (es : List MgrEvent) :
    (mgrRun (AdmissionState.init n) es).inFlight.length ≤
      (mgrRun (AdmissionState.init n) es).maxConcurrent ∧
    ∀ r ∈ (mgrRun (AdmissionState.init n) es).queue,
      r.reportKey ∉ (mgrRun (AdmissionState.init n) es).inFlight :=
  ⟨(wf_mgrRun n es).1, (wf_mgrRun n es).2.2.2⟩

/-- Witness for C1: with capacity 1, after admitting r1 and queueing r2,
the queued key r2 is not in flight. -/
theorem admission_controller_invariant_witness :
    ("r2" : String) ∉ (mgrRun (AdmissionState.init 1)
      [MgrEvent.request ("r1") Priority.normal 0,
       MgrEvent.request ("r2") Priority.high 1]).inFlight :=
  (admission_controller_invariant 1
      [MgrEvent.request ("r1") Priority.normal 0,
       MgrEvent.request ("r2") Priority.high 1]).2
    ⟨"r2", Priority.high, 1⟩ (by decide)

/-- C2: On release the controller drains by repeatedly admitting the
highest-priority pending request (high > normal > low, ties broken by
earliest enqueue time) while capacity remains: no queued request is
scheduled strictly before the selected one; in the scenario with
A(low,t0), B(high,t1), C(high,t2) queued at capacity the successive
releases admit B, then C, then A; and with maxConcurrent = 1 the queued
high-priority r2 is admitted exactly when the release of r1 frees the
slot, although r2 was requested after r1. -/
theorem priority_drain_order :
    (∀ (q : List LoadRequest) (r : LoadRequest) (rest : List LoadRequest),
      extractBest q = some (r, rest) → ∀ x ∈ q, betterThan x r = false) ∧
    (releaseLoad scenarioAtCapacity ("x")).2 = ["B"] ∧
    (releaseLoad scenarioAfterOne ("y")).2 = ["C"] ∧
    (releaseLoad scenarioAfterTwo ("z")).2 = ["A"] ∧
    (requestLoad (AdmissionState.init 1) ("r1") Priority.normal 0).2 = ["r1"] ∧
    (requestLoad scenarioR1 ("r2") Priority.high 1).2 = [] ∧
    scenarioR1R2.queue.map LoadRequest.reportKey = ["r2"] ∧
    (reportLoaded scenarioR1R2 ("r1")).2 = ["r2"] :=
  ⟨fun _ _ _ h x hx => extractBest_optimal h x hx,
    by decide, by decide, by decide, by decide, by decide, by decide, by decide⟩

/-- Witness for C2: in the queue [B(high,1), A(low,0)] the drain selects
B, and A is not scheduled before it. -/
theorem priority_drain_order_witness :
    betterThan ⟨"A", Priority.low, 0⟩ ⟨"B", Priority.high, 1⟩ = false :=
  priority_drain_order.1 [⟨"B", Priority.high, 1⟩, ⟨"A", Priority.low, 0⟩]
    ⟨"B", Priority.high, 1⟩ [⟨"A", Priority.low, 0⟩] (by decide)
    ⟨"A", Priority.low, 0⟩ (by decide)

/-- C3: Release is idempotent: a second reportLoaded / reportFailed call
for a key no longer in flight is ignored, leaves the admission state
unchanged, and the two calls perform exactly one queue drain in
total. -/
theorem release_idempotent (s : AdmissionState) (k : String) (h : wf s)
    (hk : k ∈ s.inFlight) :
    releaseLoad (releaseLoad s k).1 k = ((releaseLoad s k).1, []) ∧
    releaseDrains s k + releaseDrains (releaseLoad s k).1 k = 1 := by
  have hnot : k ∉ (releaseLoad s k).1.inFlight := releaseLoad_not_inFlight s k h
  constructor
  · revert hnot
    generalize (releaseLoad s k).1 = s1
    intro hnot
    simp [releaseLoad, hnot]
  · simp [releaseDrains, hk, hnot]

/-- Witness for C3: releasing r1 twice with capacity 1. -/
theorem release_idempotent_witness :
    releaseLoad (releaseLoad scenarioR1 ("r1")).1 ("r1") =
      ((releaseLoad scenarioR1 ("r1")).1, []) ∧
    releaseDrains scenarioR1 ("r1") +
      releaseDrains (releaseLoad scenarioR1 ("r1")).1 ("r1") = 1 :=
  release_idempotent scenarioR1 ("r1") (by decide) (by decide)

/-- C4: requestLoad deduplicates by reportKey: a call whose key matches
an existing pending or admitted entry is a no-op, and in particular a
second requestLoad with the key of a first call leaves the state
produced by the first call unchanged. -/
theorem requestLoad_dedup (s : AdmissionState) (k : String) (p : Priority)
    (t : Nat) (p' : Priority) (t' : Nat) :
    (k ∈ s.inFlight ∨ k ∈ s.queue.map LoadRequest.reportKey →
      requestLoad s k p t = (s, [])) ∧
    requestLoad (requestLoad s k p t).1 k p' t' = ((requestLoad s k p t).1, []) := by
  constructor
  · intro hdup
    simp only [requestLoad]
    rw [if_pos hdup]
  · have hmem : k ∈ (requestLoad s k p t).1.inFlight ∨
        k ∈ (requestLoad s k p t).1.queue.map LoadRequest.reportKey := by
      by_cases hdup : k ∈ s.inFlight ∨ k ∈ s.queue.map LoadRequest.reportKey
      · have hfix : (requestLoad s k p t).1 = s := by
          simp only [requestLoad]
          rw [if_pos hdup]
        rw [hfix]
        exact hdup
      · by_cases hc : s.inFlight.length < s.maxConcurrent
        · left
          simp only [requestLoad]
          rw [if_neg hdup, if_pos hc]
          exact List.mem_cons_self k s.inFlight
        · right
          simp only [requestLoad]
          rw [if_neg hdup, if_neg hc]
          show k ∈ (s.queue ++ [(⟨k, p, t⟩ : LoadRequest)]).map LoadRequest.reportKey
          rw [List.map_append]
          exact List.mem_append_right _ (by simp)
    revert hmem
    generalize (requestLoad s k p t).1 = s1
    intro hmem
    simp only [requestLoad]
    rw [if_pos hmem]

/-- Witness for C4: repeating requestLoad("r1") against the state in
which r1 is already admitted is a no-op. -/
theorem requestLoad_dedup_witness :
    requestLoad scenarioR1 ("r1") Priority.normal 5 = (scenarioR1, []) :=
  (requestLoad_dedup scenarioR1 ("r1") Priority.normal 5 Priority.high 6).1
    (Or.inl (by decide))

/-- C5: cancelLoad removes the key from the queue only while it is still
pending; for a key already admitted, or already completed (present
nowhere), the call is a no-op and the admission set is unchanged. -/
theorem cancelLoad_pending_only (s : AdmissionState) (k : String) (h : wf s) :
    (cancelLoad s k).inFlight = s.inFlight ∧
    (k ∈ s.inFlight → cancelLoad s k = s) ∧
    (k ∉ s.queue.map LoadRequest.reportKey → cancelLoad s k = s) ∧
    k ∉ (cancelLoad s k).queue.map LoadRequest.reportKey := by
  obtain ⟨hlen, hndF, hndQ, hdisj⟩ := h
  have hid : (∀ r ∈ s.queue, r.reportKey ≠ k) → cancelLoad s k = s := by
    intro hkQ
    unfold cancelLoad
    rw [List.filter_eq_self.mpr (fun r hr => by simpa using hkQ r hr)]
  refine ⟨rfl, ?_, ?_, ?_⟩
  · intro hkF
    exact hid (fun r hr heq => hdisj r hr (by rw [heq]; exact hkF))
  · intro hkQ
    exact hid (fun r hr heq =>
      hkQ (by rw [← heq]; exact List.mem_map_of_mem _ hr))
  · intro hmem
    rcases List.mem_map.mp hmem with ⟨r, hr, hkey⟩
    rcases List.mem_filter.mp hr with ⟨_, hne⟩
    simp [hkey] at hne

/-- Witness for C5: cancelling the admitted key r1 changes nothing. -/
theorem cancelLoad_pending_only_witness :
    cancelLoad scenarioR1R2 ("r1") = scenarioR1R2 :=
  (cancelLoad_pending_only scenarioR1R2 ("r1") (by decide)).2.1 (by decide)

/- ## Claim theorems for the Registry -/

/-- C6: removeInstance removes the registry entry and detaches its event
listeners when the componentId is registered, is a total no-op when the
id is unknown (so a repeated call cannot throw), and calling it twice
leaves the registry without the id after the first call while the second
call changes nothing. -/
theorem removeInstance_idempotent (reg : Registry) (id : String) :
    id ∉ (removeInstance reg id).ids ∧
    removeInstance (removeInstance reg id) id = removeInstance reg id ∧
    (id ∉ reg.ids → removeInstance reg id = reg) ∧
    (id ∈ reg.ids → (removeInstance reg id).detachedIds = id :: reg.detachedIds) := by
  cases hf : reg.entries.find? (fun e => e.componentId == id) with
  | none =>
    have hnone : removeInstance reg id = reg := by simp [removeInstance, hf]
    have hnotin : id ∉ reg.ids := by
      intro hmem
      rcases List.mem_map.mp hmem with ⟨e, he, hkey⟩
      have := List.find?_eq_none.mp hf e he
      simp [hkey] at this
    exact ⟨by rw [hnone]; exact hnotin, by rw [hnone, hnone],
      fun _ => hnone, fun hmem => absurd hmem hnotin⟩
  | some e =>
    have hrem : removeInstance reg id =
        ⟨reg.entries.filter (fun e2 => e2.componentId ≠ id), id :: reg.detachedIds⟩ := by
      simp [removeInstance, hf]
    have hnotin : id ∉ (removeInstance reg id).ids := by
      rw [hrem]
      intro hmem
      rcases List.mem_map.mp hmem with ⟨e2, he2, hkey⟩
      rcases List.mem_filter.mp he2 with ⟨_, hne⟩
      simp [hkey] at hne
    refine ⟨hnotin, ?_, ?_, fun _ => by rw [hrem]⟩
    · have hf2 : (removeInstance reg id).entries.find?
          (fun e2 => e2.componentId == id) = none := by
        apply List.find?_eq_none.mpr
        intro x hx
        rw [hrem] at hx
        rcases List.mem_filter.mp hx with ⟨_, hne⟩
        simp only [beq_iff_eq]
        simpa using hne
      revert hf2
      generalize removeInstance reg id = reg1
      intro hf2
      simp [removeInstance, hf2]
    · intro hnot
      exfalso
      have hmem : e ∈ reg.entries := List.mem_of_find?_eq_some hf
      have hpe := List.find?_some hf
      exact hnot (List.mem_map.mpr ⟨e, hmem, by simpa using hpe⟩)

/-- Witness for C6: removing a registered component detaches its
listeners. -/
theorem removeInstance_idempotent_witness :
    (removeInstance ⟨[⟨("comp-1"), true⟩], []⟩ ("comp-1")).detachedIds = ["comp-1"] :=
  (removeInstance_idempotent ⟨[⟨("comp-1"), true⟩], []⟩ ("comp-1")).2.2.2 (by decide)

/- ## Claim theorems for the component layer -/

/-- C7 counterexample: with the container attached but an empty access
token — a config missing a required field — the embed effect of
SimplePowerBIEmbed skips silently (a console warning only) and nothing
reaches the caller's error path, contrary to the claim that a missing
required field yields an EmbedError delivered to the error callback and
is never silently skipped. -/
theorem embed_missing_field_silent :
    simpleEmbedAttempt true ("") ("https://app.powerbi.com/reportEmbed") ("r1") none =
      EmbedOutcome.silentSkip ∧
    EmbedOutcome.deliversError (simpleEmbedAttempt true ("")
      ("https://app.powerbi.com/reportEmbed") ("r1") none) = false := by
  constructor <;> rfl

/-- C7 (amended): when the guard passes (container attached and id, url,
token all non-empty) an SDK rejection is delivered to the caller's error
path; when the container is missing or a required field is empty the
attempt is skipped silently and no error is delivered. -/
theorem embed_error_delivery (hc : Bool) (tok url rid msg : String) :
    (hc = true → tok ≠ "" → url ≠ "" → rid ≠ "" →
      simpleEmbedAttempt hc tok url rid (some msg) =
        EmbedOutcome.errorDelivered msg) ∧
    (hc = false ∨ tok = "" ∨ url = "" ∨ rid = "" →
      ∀ sdkErr, simpleEmbedAttempt hc tok url rid sdkErr =
        EmbedOutcome.silentSkip) := by
  constructor
  · intro h1 h2 h3 h4
    have hguard : ¬ (hc = false ∨ tok = "" ∨ url = "" ∨ rid = "") := by
      push_neg
      exact ⟨by simp [h1], h2, h3, h4⟩
    simp only [simpleEmbedAttempt]
    rw [if_neg hguard]
  · intro hguard sdkErr
    simp only [simpleEmbedAttempt]
    rw [if_pos hguard]

/-- Witness for the amended C7: a rejected SDK call surfaces its message
on the error path. -/
theorem embed_error_delivery_witness :
    simpleEmbedAttempt true ("tok") ("https://u") ("r1") (some ("boom")) =
      EmbedOutcome.errorDelivered ("boom") :=
  (embed_error_delivery true ("tok") ("https://u") ("r1") ("boom")).1 rfl
    (by decide) (by decide) (by decide)

/-- C8: the component layer never retries a failed embed automatically:
the failure transitions (the SDK error event and the embed catch block)
issue exactly one reportFailed call — never a requestLoad and never a
new embed attempt — and a new requestLoad for the key is issued by the
explicit UI retry action. -/
theorem no_automatic_retry (P : CompParams) (s : CompState) (m : String) :
    (compStep P s (CompEvent.errorEvt m)).2 = [MgrCall.reportFailed P.reportId] ∧
    (compStep P s (CompEvent.embedCatch m)).2 = [MgrCall.reportFailed P.reportId] ∧
    (∀ k p, MgrCall.requestLoad k p ∉ (compStep P s (CompEvent.errorEvt m)).2 ∧
      MgrCall.requestLoad k p ∉ (compStep P s (CompEvent.embedCatch m)).2) ∧
    (∀ k, MgrCall.embedAttempt k ∉ (compStep P s (CompEvent.errorEvt m)).2 ∧
      MgrCall.embedAttempt k ∉ (compStep P s (CompEvent.embedCatch m)).2) ∧
    (s.hasError.isSome = true →
      (compStep P s CompEvent.retryClick).2 =
        [MgrCall.requestLoad P.reportId P.priority]) := by
  refine ⟨rfl, rfl, ?_, ?_, ?_⟩
  · intro k p
    constructor <;> simp [compStep]
  · intro k
    constructor <;> simp [compStep]
  · intro hs
    simp [compStep, hs]

/-- Witness for C8: a component in the error state re-issues requestLoad
on the retry click. -/
theorem no_automatic_retry_witness :
    (compStep ⟨("r1"), Priority.normal, false⟩
      ⟨true, true, false, some ("boom")⟩ CompEvent.retryClick).2 =
      [MgrCall.requestLoad ("r1") Priority.normal] :=
  (no_automatic_retry ⟨("r1"), Priority.normal, false⟩
    ⟨true, true, false, some ("boom")⟩ ("x")).2.2.2.2 rfl

/-- The shouldLoad flag is never cleared by any component transition. -/
theorem compStep_shouldLoad_mono (P : CompParams) (s : CompState) (e : CompEvent)
    (h : s.shouldLoad = true) : (compStep P s e).1.shouldLoad = true := by
  cases e <;> simp only [compStep] <;> (try split) <;> simp [h]

/-- A requestLoad call is emitted only by the observer effect on a
component whose shouldLoad flag is still false, or by the retry
action. -/
theorem compStep_requestLoad_source (P : CompParams) (s : CompState) (e : CompEvent)
    (k : String) (p : Priority)
    (h : MgrCall.requestLoad k p ∈ (compStep P s e).2) :
    e = CompEvent.retryClick ∨ (e = CompEvent.intersect ∧ s.shouldLoad = false) := by
  cases e with
  | intersect =>
    simp only [compStep] at h
    split at h
    case isTrue hcond =>
      refine Or.inr ⟨rfl, ?_⟩
      rw [Bool.and_eq_true] at hcond
      simpa using hcond.2
    case isFalse => simp at h
  | admitCb => simp [compStep] at h
  | effectEmbed =>
    simp only [compStep] at h
    split at h <;> simp at h
  | loadedEvt => simp [compStep] at h
  | errorEvt m => simp [compStep] at h
  | embedCatch m => simp [compStep] at h
  | retryClick => exact Or.inl rfl
  | unmount => simp [compStep] at h

/-- Along any event trace of a component whose shouldLoad flag holds,
every emitted requestLoad call stems from a retry click. -/
theorem compRun_requestLoad_retry (P : CompParams) (k : String) (p : Priority) :
    ∀ (es : List CompEvent) (s : CompState), s.shouldLoad = true →
      MgrCall.requestLoad k p ∈ (compRun P s es).2 → CompEvent.retryClick ∈ es := by
  intro es
  induction es with
  | nil =>
    intro s _ h
    simp [compRun] at h
  | cons e tl ih =>
    intro s hs h
    simp only [compRun, List.mem_append] at h
    rcases h with h1 | h2
    · rcases compStep_requestLoad_source P s e k p h1 with rfl | ⟨rfl, hfalse⟩
      · exact List.mem_cons_self _ _
      · rw [hs] at hfalse
        cases hfalse
    · exact List.mem_cons_of_mem _ (ih _ (compStep_shouldLoad_mono P s e hs) h2)

/-- C9 counterexample: a high-priority component has shouldLoad true
from the start, yet it still calls requestLoad on the load manager: the
retry action after an embed error issues requestLoad("r1", high), so
high-priority reports are not exempt from calling the admission
controller. -/
theorem high_priority_retry_calls_requestLoad :
    (initComp highParams).shouldLoad = true ∧
    MgrCall.requestLoad ("r1") Priority.high ∈
      (compRun highParams (initComp highParams)
        [CompEvent.effectEmbed, CompEvent.errorEvt ("boom"),
         CompEvent.retryClick]).2 := by
  constructor
  · rfl
  · decide

/-- C9 (amended): a component with priority high, or with lazyLoad
false, has shouldLoad true from the start, so the IntersectionObserver
lazy-load path never issues requestLoad for it — the initial load
bypasses the admission controller — and the only way such a component
ever calls requestLoad is the explicit retry action. -/
theorem high_priority_bypasses_observer (P : CompParams)
    (h : P.priority = Priority.high ∨ P.lazyLoad = false) :
    (initComp P).shouldLoad = true ∧
    ∀ (es : List CompEvent) (k : String) (p : Priority),
      MgrCall.requestLoad k p ∈ (compRun P (initComp P) es).2 →
      CompEvent.retryClick ∈ es := by
  have hinit : (initComp P).shouldLoad = true := by
    rcases h with hp | hl
    · simp [initComp, hp]
    · simp [initComp, hl]
  exact ⟨hinit, fun es k p hmem =>
    compRun_requestLoad_retry P k p es (initComp P) hinit hmem⟩

/-- Witness for the amended C9 at the concrete high-priority
parameters. -/
theorem high_priority_bypasses_observer_witness :
    (initComp highParams).shouldLoad = true :=
  (high_priority_bypasses_observer highParams (Or.inl rfl)).1

/-- C10: over every sequence of addEvent calls the demo application's
event history never exceeds 50 entries, and the most recently added
event is always first: addEvent prepends the new event and keeps at most
the first 49 previous entries. -/
theorem event_history_bound (evs : List DemoEvent) (e : DemoEvent) :
    (runEvents evs).length ≤ 50 ∧
    (addEvent e (runEvents evs)).length ≤ 50 ∧
    (runEvents (evs ++ [e])).head? = some e ∧
    addEvent e (runEvents evs) = e :: (runEvents evs).take 49 := by
  have haddlen : ∀ (x : DemoEvent) (h : List DemoEvent),
      (addEvent x h).length ≤ 50 := by
    intro x h
    simp only [addEvent, List.length_cons, List.length_take]
    have := min_le_left 49 h.length
    omega
  have hrun : ∀ (l : List DemoEvent) (h : List DemoEvent), h.length ≤ 50 →
      (l.foldl (fun acc x => addEvent x acc) h).length ≤ 50 := by
    intro l
    induction l with
    | nil => intro h hh; exact hh
    | cons x tl ih => intro h _; exact ih (addEvent x h) (haddlen x h)
  refine ⟨hrun evs [] (by simp), haddlen e _, ?_, rfl⟩
  show (runEvents (evs ++ [e])).head? = some e
  unfold runEvents
  rw [List.foldl_append]
  rfl

end PowerBIReact
